import Mathlib

/-!
Verification of the `starstruct` flattening core of the rego repository
(`pkg/common/starstruct/struct.go`).

The Go code introspects runtime values with `reflect`.  We embed the
runtime values the code dispatches on as an inductive `Value` (record /
mapping / sequence / pointer / interface / scalar / invalid), carrying the
pieces of static type information the code actually consults
(`field.Type.Kind()`, `field.Type.String()`, struct tags, exportedness,
`reflect.Zero` of a slice's element type).  Strings are Lean `String`s;
Go's byte-wise string order coincides with code-point order on UTF-8, so
`String`-level comparison is faithful.  Go maps are embedded as
association lists with overwrite-on-insert; the code never lets native
map iteration order reach its output (it sorts), and comments below mark
the one place the embedding folds in a fixed order where the source
iterates a map.
-/

namespace Starstruct

/-! ### Small string helpers shared by the embedding -/

/-- Go byte-wise `<` on strings, char by char (UTF-8 byte order equals
code-point order, so comparing `Char.val` is faithful). -/
def charsLt : List Char → List Char → Bool
  | [], [] => false
  | [], _ :: _ => true
  | _ :: _, [] => false
  | a :: as, b :: bs =>
    if a.val < b.val then true
    else if b.val < a.val then false
    else charsLt as bs

/-- Go `a < b` on strings. -/
def strLt (a b : String) : Bool := charsLt a.data b.data

/-- Model of `strings.Contains(s, sub)` (used only for the `,inline` tag test). -/
def containsSub (s sub : String) : Bool := decide (sub.data <:+: s.data)

/-- Character-level prefix test (`strings.HasPrefix`; byte-wise in Go,
which agrees with char-wise on UTF-8). -/
def charsPfx : List Char → List Char → Bool
  | [], _ => true
  | _ :: _, [] => false
  | a :: as, b :: bs => a == b && charsPfx as bs

/-- Model of `strings.HasPrefix(s, p)`. -/
def hasPfx (s p : String) : Bool := charsPfx p.data s.data

/-- Model of `strings.TrimPrefix(s, p)`: drop `p` when it is a prefix, else `s`. -/
def trimPfx (s p : String) : String :=
  if charsPfx p.data s.data then String.mk (s.data.drop p.data.length) else s

/-- Model of `strings.Split` on a one-character separator (`""` splits to `[""]`). -/
def splitOnChar (sep : Char) : List Char → List (List Char)
  | [] => [[]]
  | c :: cs =>
    let r := splitOnChar sep cs
    if c == sep then [] :: r
    else
      match r with
      | [] => [[c]]
      | h :: t => (c :: h) :: t

/-- Embeds `getFirstTag` (struct.go:751): first comma-separated part of a tag. -/
def getFirstTag (tag : String) : String :=
  String.mk ((splitOnChar ',' tag.data).headD [])

/-- Embeds `camelKey` (struct.go:209): lower-case the first character.  The Go
code special-cases an ASCII `A`-`Z` first byte and otherwise applies
`unicode.ToLower` to the first rune; `Char.toLower` models the latter
(exact on ASCII, which is all the claims use). -/
def camelKey (s : String) : String :=
  match s.data with
  | [] => s
  | c :: rest =>
    if 'A' ≤ c && c ≤ 'Z' then String.mk (Char.ofNat (c.toNat + 32) :: rest)
    else String.mk (c.toLower :: rest)

/-- Embeds `isLetter` (struct.go:204): ASCII letter or underscore. -/
def isLetterGo (c : Char) : Bool :=
  ('a' ≤ c && c ≤ 'z') || ('A' ≤ c && c ≤ 'Z') || c == '_'

/-- Embeds `ensureValidIdentifier` (struct.go:196).  The Go code tests the first
byte `name[0]`; for ASCII input that is the first character, and for a
multi-byte first rune the lead byte is not an ASCII letter, so testing
the first char gives the same branch. -/
def ensureValidIdentifier (name : String) : String :=
  match name.data with
  | [] => "Field" ++ name
  | c :: _ => if isLetterGo c then name else "Field" ++ name

/-- Embeds `joinPrefixKey` (struct.go:664). -/
def joinPfxKey (p key : String) : String :=
  if p == "" && key == "" then ""
  else if p == "" then key
  else if key == "" then p
  else p ++ "." ++ key

/-- Header matching used for pruning and for table assembly
(struct.go:289, 821, 839): exact or dotted-prefix match. -/
def matchesHeader (header key : String) : Bool :=
  key == header || hasPfx key (header ++ ".")

/-- Model of `strconv.Atoi`: optional sign, one or more ASCII digits, 64-bit
signed range. -/
def atoiQ (s : String) : Option Int :=
  let core : List Char → Bool → Option Int := fun ds neg =>
    if ds.isEmpty || !(ds.all Char.isDigit) then none
    else
      let n : Nat := ds.foldl (fun a c => 10 * a + (c.toNat - 48)) 0
      let v : Int := if neg then -(n : Int) else (n : Int)
      if v < -(2 ^ 63) || v > 2 ^ 63 - 1 then none else some v
  match s.data with
  | [] => none
  | '+' :: rest => core rest false
  | '-' :: rest => core rest true
  | l => core l false

/-- Split at the first occurrence of `sep`, when there is one. -/
def splitFirst (sep : Char) : List Char → List Char × Option (List Char)
  | [] => ([], none)
  | c :: cs =>
    if c == sep then ([], some cs)
    else
      let r := splitFirst sep cs
      (c :: r.1, r.2)

/-- Model of `strings.SplitN(s, ".", 2)`: at most two parts. -/
def splitN2 (s : String) : List String :=
  match splitFirst '.' s.data with
  | (a, none) => [String.mk a]
  | (a, some rest) => [String.mk a, String.mk rest]

/-- Width of the zero-padded index segment (struct.go:698):
`len(strconv.Itoa(n-1))`, at least 2 (`n-1` computed in `Int`, so an
empty slice gives `"-1"`, width 2). -/
def sliceWidth (n : Nat) : Nat :=
  let w := (toString ((n : Int) - 1)).length
  if w < 2 then 2 else w

/-- Model of `fmt.Sprintf` zero-padding (`%0*d`) for `j ≥ 0`: left-pad with zeros. -/
def zeroPad (w : Nat) (s : String) : String :=
  if s.length < w then String.mk (List.replicate (w - s.length) '0') ++ s else s

/-- Deterministic insertion sort; stands in for Go's `sort.Slice`.
`sort.Slice` is unstable, but the code only sorts with comparators that
are total on the keys it produces, so any comparator sort is faithful. -/
def insOne {α : Type} (less : α → α → Bool) (x : α) : List α → List α
  | [] => [x]
  | y :: ys => if less x y then x :: y :: ys else y :: insOne less x ys

/-- See `insOne`. -/
def insSortBy {α : Type} (less : α → α → Bool) : List α → List α
  | [] => []
  | x :: xs => insOne less x (insSortBy less xs)

/-! ### Association lists standing in for Go maps -/

/-- Content of a Go `map[string]string` as an association list with distinct
keys; `m[k] = v` overwrites in place or appends. -/
def mapInsert (m : List (String × String)) (k v : String) :
    List (String × String) :=
  if m.any (fun kv => kv.1 == k) then
    m.map (fun kv => if kv.1 == k then (k, v) else kv)
  else m ++ [(k, v)]

/-- Go map read `m[k]` (zero value `""` when absent). -/
def lookupD (m : List (String × String)) (k : String) : String :=
  match m.find? (fun kv => kv.1 == k) with
  | some kv => kv.2
  | none => ""

/-- Model of `strings.Join` with a separator (structural stand-in for
`String.intercalate`). -/
def joinSep (sep : String) : List String → String
  | [] => ""
  | [x] => x
  | x :: xs => x ++ sep ++ joinSep sep xs

/-! ### The runtime values the reflection code dispatches on -/

/-- The `reflect.Kind` of a struct field's declared type, to the granularity
the generator consults (struct.go:433-442 tests `Struct`, `Ptr` with
`Elem` `Struct`, `Map`, `Ptr` with `Elem` `Map`; everything else falls
through). -/
inductive DKind where
  | dString
  | dInt
  | dBool
  | dStructK
  | dMapK
  | dSliceK
  | dPtrStructK
  | dPtrMapK
  | dPtrOtherK
  | dIfaceK
  | dOtherK
deriving DecidableEq, Repr

mutual

/-- A runtime value as seen through `reflect`.  `vTime` is a `time.Time`
value: its `Kind` is `Struct`, its rendered form (`fmt.Sprint`) is the
stored string, and it has no exported fields.  `vSlice` carries
`reflect.Zero` of the declared element type (used by the generator's
empty-merge fallback, struct.go:387) alongside the elements; `vArr` is a
Go array, which the generator treats like a slice (struct.go:346) but
the flattener refuses as a flattening target (struct.go:553-558, reached
from struct.go:642 and struct.go:737) while printing it when it is a
plain field or element.  `vMap` keys are stored already stringified
(`fmt.Sprint` of the key), because that is the only way the code ever
looks at them.  `vInvalid` is the zero `reflect.Value` (e.g. `Elem` of a
nil pointer). -/
inductive Value where
  | vStr (s : String)
  | vInt (n : Int)
  | vBool (b : Bool)
  | vTime (rendered : String)
  | vStruct (fields : List SField)
  | vMap (entries : List (String × Value))
  | vSlice (zero : Value) (elems : List Value)
  | vArr (zero : Value) (elems : List Value)
  | vPtr (target : Option Value)
  | vIface (target : Option Value)
  | vInvalid

/-- A struct field: declared name, the full `json`/`url`/`xml` tag
strings, whether the field is embedded (`Anonymous`), whether it is
exported, the declared type's kind and `Type.String()`, and the field's
value. -/
inductive SField where
  | mk (name jsonTag urlTag xmlTag : String) (anon exported : Bool)
      (declKind : DKind) (typeStr : String) (value : Value)

end

def SField.name : SField → String
  | .mk n _ _ _ _ _ _ _ _ => n

def SField.jsonTag : SField → String
  | .mk _ j _ _ _ _ _ _ _ => j

def SField.urlTag : SField → String
  | .mk _ _ u _ _ _ _ _ _ => u

def SField.xmlTag : SField → String
  | .mk _ _ _ x _ _ _ _ _ => x

def SField.anon : SField → Bool
  | .mk _ _ _ _ a _ _ _ _ => a

def SField.exported : SField → Bool
  | .mk _ _ _ _ _ e _ _ _ => e

def SField.declKind : SField → DKind
  | .mk _ _ _ _ _ _ k _ _ => k

def SField.typeStr : SField → String
  | .mk _ _ _ _ _ _ _ t _ => t

def SField.value : SField → Value
  | .mk _ _ _ _ _ _ _ _ v => v

/-- The `reflect.Kind` name, for error messages built with `%v`. -/
def kindName : Value → String
  | .vStr _ => "string"
  | .vInt _ => "int"
  | .vBool _ => "bool"
  | .vTime _ => "struct"
  | .vStruct _ => "struct"
  | .vMap _ => "map"
  | .vSlice _ _ => "slice"
  | .vArr _ _ => "array"
  | .vPtr _ => "ptr"
  | .vIface _ => "interface"
  | .vInvalid => "invalid"

/-- Is the value's `Kind` `Struct`? -/
def isStructKind : Value → Bool
  | .vStruct _ => true
  | .vTime _ => true
  | _ => false

/-- The nil-reference test `(Kind == Ptr || Kind == Interface) && IsNil()` (struct.go:355, 419). -/
def isNilRef : Value → Bool
  | .vPtr none => true
  | .vIface none => true
  | _ => false

/-- Embeds `DerefPointers` (struct.go:511): unwrap pointers and interfaces.
The scalar cases of the nil-switch are dead code (inside the loop the
kind is always `Ptr` or `Interface`), the error return is commented out
in the source, and `Elem()` of a nil pointer/interface is the invalid
`reflect.Value`, so a nil reference unwraps to `vInvalid` and the
function never fails. -/
def derefPointers : Value → Value
  | .vPtr none => .vInvalid
  | .vIface none => .vInvalid
  | .vPtr (some v) => derefPointers v
  | .vIface (some v) => derefPointers v
  | v => v

mutual

/-- Model of `fmt.Sprint` at the uses the code makes of it: scalars print
themselves, `time.Time` prints its stored rendering, structs print
`\x7bv1 v2 ...\x7d`, slices print `[v1 v2 ...]`, maps print
`map[k1:v1 ...]` with keys sorted, a non-nil pointer prints `&` plus its
target (faithful for pointer-to-struct, the only pointer the code
prints), nil prints `<nil>`. -/
def goSprint : Value → String
  | .vStr s => s
  | .vInt n => toString n
  | .vBool b => if b then "true" else "false"
  | .vTime r => r
  | .vStruct fs => "\x7b" ++ joinSep " " (goSprintFields fs) ++ "\x7d"
  | .vMap es =>
    "map[" ++
      joinSep " "
        ((insSortBy (fun a b => strLt a.1 b.1) (goSprintEntries es)).map
          (fun kv => kv.1 ++ ":" ++ kv.2)) ++ "]"
  | .vSlice _ es => "[" ++ joinSep " " (goSprintList es) ++ "]"
  | .vArr _ es => "[" ++ joinSep " " (goSprintList es) ++ "]"
  | .vPtr none => "<nil>"
  | .vPtr (some v) => "&" ++ goSprint v
  | .vIface none => "<nil>"
  | .vIface (some v) => goSprint v
  | .vInvalid => "<nil>"

/-- See `goSprint`. -/
def goSprintList : List Value → List String
  | [] => []
  | v :: vs => goSprint v :: goSprintList vs

/-- See `goSprint`. -/
def goSprintFields : List SField → List String
  | [] => []
  | .mk _ _ _ _ _ _ _ _ v :: fs => goSprint v :: goSprintFields fs

/-- See `goSprint`. -/
def goSprintEntries : List (String × Value) → List (String × String)
  | [] => []
  | (k, v) :: es => (k, goSprint v) :: goSprintEntries es

end

/-! ### Field-name generation (`GenerateFieldNames`, struct.go:317) -/

/-- Modelled from the spec: `MergeFields` lives in another package of this
repository that is not under `src/` (struct.go:383 calls it).  Spec §4.3:
"UNION-MERGE into the baseline (preserve baseline order; append any new
path from the candidate not already present, in candidate order)". -/
def MergeFields (base cand : List String) : List String :=
  cand.foldl (fun acc p => if p ∈ acc then acc else acc ++ [p]) base

/-- Concatenate per-key results in order, stopping at the first error. -/
def seqConcat :
    List (String × Except String (List String)) → Except String (List String)
  | [] => .ok []
  | (_, .error e) :: _ => .error e
  | (_, .ok f) :: rest =>
    match seqConcat rest with
    | .error e => .error e
    | .ok fs => .ok (f ++ fs)

mutual

/-- Embeds `GenerateFieldNames` (struct.go:317) with the configuration reduced
to the only option it reads, `ExcludeNil`.  The source calls
`DerefPointers` up front (struct.go:329); that is fused into the
`vPtr`/`vIface` arms here (a nil reference unwraps to the invalid value,
whose arm returns `[pfx]`, so the dead `Interface`/`Ptr` arms at
struct.go:454-463 are subsumed).  `genFieldNames_derefPointers` below
certifies the fusion.  A `time.Time` value (only reachable here as a
slice element or the top-level argument, since struct fields of that
type are cut off at struct.go:407) has no exported fields; the source
would walk its unexported fields, which no claim exercises, so it
generates no paths here. -/
def genFieldNames (ex : Bool) (pfx : String) : Value → Except String (List String)
  | .vPtr none => .ok [pfx]
  | .vIface none => .ok [pfx]
  | .vInvalid => .ok [pfx]
  | .vPtr (some v) => genFieldNames ex pfx v
  | .vIface (some v) => genFieldNames ex pfx v
  | .vMap es =>
    -- struct.go:338: the Map case defers to generateMapFieldNames.
    seqConcat (insSortBy (fun a b => strLt a.1 b.1) (genMapPer pfx es))
  | .vSlice zero elems =>
    -- struct.go:346-394.
    if elems.length == 0 then .error "GenerateFieldNames: empty slice or array"
    else
      match genSliceBase ex pfx elems with
      | .error e => .error e
      | .ok base =>
        match genSliceMerge ex pfx base elems with
        | .error e => .error e
        | .ok merged =>
          if merged.length == 0 then genFieldNames ex pfx zero
          else .ok merged
  | .vArr zero elems =>
    -- struct.go:346 handles Slice and Array in the same case; same body.
    if elems.length == 0 then .error "GenerateFieldNames: empty slice or array"
    else
      match genSliceBase ex pfx elems with
      | .error e => .error e
      | .ok base =>
        match genSliceMerge ex pfx base elems with
        | .error e => .error e
        | .ok merged =>
          if merged.length == 0 then genFieldNames ex pfx zero
          else .ok merged
  | .vStruct fs => genStructFields ex pfx fs
  | .vTime _ => .ok []
  | v => .error ("GenerateFieldNames: unsupported input type: " ++ kindName v)

/-- Struct-field loop of `GenerateFieldNames` (struct.go:400-451). -/
def genStructFields (ex : Bool) (pfx : String) :
    List SField → Except String (List String)
  | [] => .ok []
  | .mk _ jsonFull _ _ anon _ dk tyStr v :: fs =>
    let jsonTag := getFirstTag jsonFull
    let this : Except String (List String) :=
      if tyStr == "time.Time" && !anon then
        -- struct.go:407: the tag alone, *not* joined under the prefix.
        .ok [jsonTag]
      else if jsonTag == "-" then .ok []
      else if ex && isNilRef v then .ok []
      else
        let fieldKey := joinPfxKey pfx jsonTag
        if containsSub jsonFull ",inline" then genFieldNames ex pfx v
        else if dk == .dStructK || dk == .dPtrStructK then
          genFieldNames ex fieldKey v
        else if dk == .dMapK || dk == .dPtrMapK then
          -- struct.go:443 drops the options.
          genMapFieldNames fieldKey v
        else .ok [fieldKey]
    match this with
    | .error e => .error e
    | .ok here =>
      match genStructFields ex pfx fs with
      | .error e => .error e
      | .ok rest => .ok (here ++ rest)

/-- Baseline of the slice case (struct.go:352-368): field list of the
first non-nil element, `[]` when every element is a nil reference. -/
def genSliceBase (ex : Bool) (pfx : String) :
    List Value → Except String (List String)
  | [] => .ok []
  | e :: es =>
    if isNilRef e then genSliceBase ex pfx es
    else genFieldNames ex pfx e

/-- Merge loop of the slice case (struct.go:370-384): every non-nil
element's field list is union-merged into the accumulator. -/
def genSliceMerge (ex : Bool) (pfx : String) (acc : List String) :
    List Value → Except String (List String)
  | [] => .ok acc
  | e :: es =>
    if isNilRef e then genSliceMerge ex pfx acc es
    else
      match genFieldNames ex pfx e with
      | .error er => .error er
      | .ok sub => genSliceMerge ex pfx (MergeFields acc sub) es

/-- Embeds `generateMapFieldNames` (struct.go:473), with `DerefPointers` fused
as in `genFieldNames` (a nil reference unwraps to the invalid value,
which is not a map, hence the error). -/
def genMapFieldNames (pfx : String) : Value → Except String (List String)
  | .vPtr none => .error "generateMapFieldNames: expected a map, got invalid"
  | .vIface none => .error "generateMapFieldNames: expected a map, got invalid"
  | .vPtr (some v) => genMapFieldNames pfx v
  | .vIface (some v) => genMapFieldNames pfx v
  | .vMap es =>
    seqConcat (insSortBy (fun a b => strLt a.1 b.1) (genMapPer pfx es))
  | v => .error ("generateMapFieldNames: expected a map, got " ++ kindName v)

/-- Per-key work of `generateMapFieldNames` (struct.go:492-506): the
dispatch is on the entry value's `Kind` without dereferencing, and the
recursive call at struct.go:498 passes no options.  The source iterates
the keys in sorted order; a per-key result depends only on its entry, so
the results are computed in entry order and `seqConcat` consumes them
sorted by key, which yields the same output and meets the same first
error. -/
def genMapPer (pfx : String) :
    List (String × Value) → List (String × Except String (List String))
  | [] => []
  | (k, v) :: es =>
    let fieldKey := joinPfxKey pfx k
    let this : Except String (List String) :=
      match v with
      | .vMap ms => genFieldNames false fieldKey (.vMap ms)
      | .vStruct sfs => genFieldNames false fieldKey (.vStruct sfs)
      | .vTime r => genFieldNames false fieldKey (.vTime r)
      | _ => .ok [fieldKey]
    (k, this) :: genMapPer pfx es

end

/-! ### Flattening (`FlattenNestedStructs`, struct.go:542) -/

/-- Embeds `getMapKey` (struct.go:756): tag priority `json`, `url`, `xml`, each
skipping `""` and `"-"`, else `camelKey` of the declared name. -/
def getMapKey (f : SField) : String :=
  let jsonTag := getFirstTag f.jsonTag
  let urlTag := getFirstTag f.urlTag
  let xmlTag := getFirstTag f.xmlTag
  if jsonTag != "" && jsonTag != "-" then jsonTag
  else if urlTag != "" && urlTag != "-" then urlTag
  else if xmlTag != "" && xmlTag != "-" then xmlTag
  else camelKey f.name

/-- Go map content `map[string]string`. -/
abbrev SMap := List (String × String)

/-- Kind test at struct.go:737: `Map`, `Struct`, `Slice` or `Array`. -/
def isMapStructSliceKind : Value → Bool
  | .vMap _ => true
  | .vStruct _ => true
  | .vTime _ => true
  | .vSlice _ _ => true
  | .vArr _ _ => true
  | _ => false

/-- Outcome of a flattening run: the updated map, a returned error, or a
runtime panic.  The one panic inside the flattener is
`fmt.Sprint(value.Interface())` at struct.go:743, reached when a map
entry's value dereferences to the invalid `reflect.Value` (a nil pointer
or nil interface entry): `Interface()` on the zero `Value` panics. -/
inductive FlatRes where
  | ok (m : SMap)
  | error (msg : String)
  | panicked (msg : String)
deriving Repr

/-- Replay per-key flattening results into the shared map in order,
stopping at the first error or panic (the source iterates the sorted
keys and aborts at the first failing one). -/
def applyEntries (m : SMap) : List (String × FlatRes) → FlatRes
  | [] => .ok m
  | (_, .error e) :: _ => .error e
  | (_, .panicked p) :: _ => .panicked p
  | (_, .ok pairs) :: rest =>
    applyEntries (pairs.foldl (fun acc kv => mapInsert acc kv.1 kv.2) m) rest

mutual

/-- Embeds `FlattenNestedStructs` (struct.go:542).  The source dereferences the
item first (fused into the `vPtr`/`vIface` arms, as in `genFieldNames`;
a nil reference unwraps to the invalid value and falls into the error
arm) and then dispatches: struct walks the fields, map and slice get
their own walks, anything else — an array included (struct.go:553-558) —
is an error.  A `time.Time` value has only unexported fields, all
skipped, so it contributes nothing. -/
def flattenNested (v : Value) (pfx : String) (m : SMap) : FlatRes :=
  match v with
  | .vPtr none => .error "expected a struct or pointer to a struct, got invalid"
  | .vIface none => .error "expected a struct or pointer to a struct, got invalid"
  | .vInvalid => .error "expected a struct or pointer to a struct, got invalid"
  | .vPtr (some u) => flattenNested u pfx m
  | .vIface (some u) => flattenNested u pfx m
  | .vStruct fs => flattenFields fs pfx m
  | .vTime _ => .ok m
  | .vMap es =>
    applyEntries m (insSortBy (fun a b => strLt a.1 b.1) (flattenMapPer pfx es))
  | .vSlice _ elems =>
    flattenSliceGo elems 0 (sliceWidth elems.length) pfx m
  | u => .error ("expected a struct or pointer to a struct, got " ++ kindName u)


/-- Field loop of `FlattenNestedStructs` (struct.go:562-658), dispatching
on the field value's dynamic kind. -/
def flattenFields (fs : List SField) (pfx : String) (m : SMap) :
    FlatRes :=
  match fs with
  | [] => .ok m
  | f :: rest =>
    match flattenFieldStep f pfx m with
    | .error e => .error e
    | .panicked p => .panicked p
    | .ok m2 => flattenFields rest pfx m2

/-- One field of the loop of `FlattenNestedStructs` (struct.go:562-658):
skip unexported fields, then dispatch on the field value's dynamic
kind. -/
def flattenFieldStep (f : SField) (pfx : String) (m : SMap) :
    FlatRes :=
  match f with
  | .mk nm jsonFull urlFull xmlFull anon exported dk tyStr fv =>
    let kPfx :=
      joinPfxKey pfx
        (getMapKey (.mk nm jsonFull urlFull xmlFull anon exported dk tyStr fv))
    let inl := containsSub jsonFull ",inline"
    if !exported then .ok m
    else
      match fv with
        | .vSlice _ els =>
          -- struct.go:574-582
          if els.length == 0 then .ok (mapInsert m kPfx "")
          else flattenSliceGo els 0 (sliceWidth els.length) kPfx m
        | .vArr z els =>
          -- An array field is not a Slice: it falls into the default arm
          -- (struct.go:651-656) and prints.
          .ok (mapInsert m kPfx (goSprint (.vArr z els)))
        | .vStruct sfs =>
          -- struct.go:583-603: time.Time leaf (declared type), inline, nested
          if tyStr == "time.Time" && !anon then
            .ok (mapInsert m kPfx (goSprint (.vStruct sfs)))
          else if inl then flattenNested (.vStruct sfs) pfx m
          else flattenNested (.vStruct sfs) kPfx m
        | .vTime r =>
          if tyStr == "time.Time" && !anon then .ok (mapInsert m kPfx r)
          else if inl then flattenNested (.vTime r) pfx m
          else flattenNested (.vTime r) kPfx m
        | .vIface none => .ok m
        | .vIface (some e) =>
          -- struct.go:604-613: only a struct behind a non-nil interface is
          -- flattened, under the parent prefix; anything else is dropped.
          match e with
          | .vStruct sfs => flattenNested (.vStruct sfs) pfx m
          | .vTime r => flattenNested (.vTime r) pfx m
          | _ => .ok m
        | .vMap es =>
          -- struct.go:614-629
          if es.length == 0 then .ok (mapInsert m kPfx "")
          else if inl then
            applyEntries m (insSortBy (fun a b => strLt a.1 b.1) (flattenMapPer pfx es))
          else
            applyEntries m (insSortBy (fun a b => strLt a.1 b.1) (flattenMapPer kPfx es))
        | .vPtr none => .ok (mapInsert m kPfx "<nil>")
        | .vPtr (some u) =>
          -- struct.go:630-650: one Elem, then dispatch on the target kind.
          match u with
          | .vStruct sfs =>
            if inl then flattenNested (.vStruct sfs) pfx m
            else flattenNested (.vStruct sfs) kPfx m
          | .vTime r =>
            if inl then flattenNested (.vTime r) pfx m
            else flattenNested (.vTime r) kPfx m
          | .vMap es2 => flattenNested (.vMap es2) kPfx m
          | .vSlice z2 els2 => flattenNested (.vSlice z2 els2) kPfx m
          | .vArr z2 els2 =>
            -- struct.go:642 sends Map, Slice *and* Array targets back
            -- through FlattenNestedStructs, whose top-level dispatch has
            -- no Array arm: a pointer-to-array field is an error.
            flattenNested (.vArr z2 els2) kPfx m
          | w => .ok (mapInsert m kPfx (goSprint w))
        | .vStr s => .ok (mapInsert m kPfx s)
        | .vInt n => .ok (mapInsert m kPfx (goSprint (.vInt n)))
        | .vBool b => .ok (mapInsert m kPfx (goSprint (.vBool b)))
        | .vInvalid => .ok (mapInsert m kPfx "<nil>")


/-- Embeds `flattenSlice` (struct.go:697): zero-padded index keys; struct
elements recurse, anything else prints. -/
def flattenSliceGo (elems : List Value) (j w : Nat) (kPfx : String)
    (m : SMap) : FlatRes :=
  match elems with
  | [] => .ok m
  | e :: es =>
    let elemKey := joinPfxKey kPfx (zeroPad w (toString j))
    let step : FlatRes :=
      match e with
      | .vStruct sfs => flattenNested (.vStruct sfs) elemKey m
      | .vTime r => flattenNested (.vTime r) elemKey m
      | _ => .ok (mapInsert m elemKey (goSprint e))
    match step with
    | .error er => .error er
    | .panicked p => .panicked p
    | .ok m2 => flattenSliceGo es (j + 1) w kPfx m2


/-- Per-key work of `flattenMap` (struct.go:721): the value is
dereferenced and, when its kind is map, struct, slice or array, it is
flattened under the joined key (`flattenNested` unwraps references the
same way the dereference does, so it receives the original value).
Otherwise the default arm runs `fmt.Sprint(value.Interface())`
(struct.go:743): when the dereferenced value is invalid — the entry was
a nil pointer or nil interface — `Interface()` panics with
`reflect: call of reflect.Value.Interface on zero Value`; any other
value prints.  The source iterates the keys in sorted order mutating the
shared map; a per-key run depends only on its entry, so the runs are
computed in entry order and `applyEntries` replays them into the shared
map sorted by key, which builds the same map and meets the same first
error or panic. -/
def flattenMapPer (pfx : String) :
    List (String × Value) → List (String × FlatRes)
  | [] => []
  | (k, v) :: es =>
    let newKey := joinPfxKey pfx k
    let this : FlatRes :=
      if isMapStructSliceKind (derefPointers v) then flattenNested v newKey []
      else
        match derefPointers v with
        | .vInvalid =>
          .panicked "reflect: call of reflect.Value.Interface on zero Value"
        | dv => .ok [(newKey, goSprint dv)]
    (k, this) :: flattenMapPer pfx es


end

/-! ### Table assembly (`mapToSliceAndUpdateFields`, struct.go:778) -/

/-- The group comparator `sortGroupKeys` (struct.go:783-815): the key
equal to the header first; otherwise both keys extend `header + "."`,
and the first dot-segments of the suffixes are compared numerically when
both parse as integers (ties broken by the remaining suffix, a key
without a remainder first), else the full keys compare
lexicographically. -/
def sortGroupLess (header a b : String) : Bool :=
  if a == header && b != header then true
  else if b == header && a != header then false
  else
    let aSuf := trimPfx a (header ++ ".")
    let bSuf := trimPfx b (header ++ ".")
    let pa := splitN2 aSuf
    let pb := splitN2 bSuf
    match atoiQ (pa.headD ""), atoiQ (pb.headD "") with
    | some nA, some nB =>
      if nA != nB then decide (nA < nB)
      else if pa.length > 1 && pb.length > 1 then strLt (pa.getD 1 "") (pb.getD 1 "")
      else decide (pa.length < pb.length)
    | _, _ => strLt a b

/-- Embeds `mapToSliceAndUpdateFields` (struct.go:778), written as the source's
two loops: per header, the matching keys of the field map are collected,
sorted with `sortGroupLess` and emitted (skipped when the group is
empty); afterwards the unmatched keys are emitted in lexicographic
order.  Returns `(fieldSlice, newFields)`; the source stores the second
component through the `headers` pointer and always returns a nil error.
The source collects each group by ranging over the Go map; here the
group is collected in field-map order, which the subsequent sort makes
irrelevant.  `assembleStep` is the body of the header loop. -/
def assembleStep (fieldMap : SMap)
    (acc : List (String × String) × List String) (header : String) :
    List (String × String) × List String :=
  let group := (fieldMap.map Prod.fst).filter (fun k => matchesHeader header k)
  if group.length > 0 then
    let g := insSortBy (sortGroupLess header) group
    (acc.1 ++ g.map (fun k => (k, lookupD fieldMap k)), acc.2 ++ g)
  else acc

/-- See `mapToSliceAndUpdateFields` (the header loop's body is
`assembleStep`). -/
def mapToSliceAndUpdateFields (fieldMap : SMap) (headers : List String) :
    List (String × String) × List String :=
  let acc1 := headers.foldl (assembleStep fieldMap) ([], [])
  let leftovers :=
    (fieldMap.map Prod.fst).filter
      (fun k => !(headers.any (fun h => matchesHeader h k)))
  let ls := insSortBy strLt leftovers
  (acc1.1 ++ ls.map (fun k => (k, lookupD fieldMap k)), acc1.2 ++ ls)

/-- See `assembleSpec`. -/
def headerGroups (fieldMap : SMap) (headers : List String) : List String :=
  (headers.map (fun h =>
    insSortBy (sortGroupLess h)
      ((fieldMap.map Prod.fst).filter (fun k => matchesHeader h k)))).flatten

/-- See `assembleSpec`. -/
def restKeys (fieldMap : SMap) (headers : List String) : List String :=
  insSortBy strLt
    ((fieldMap.map Prod.fst).filter
      (fun k => !(headers.any (fun h => matchesHeader h k))))

/-- The claim's reading of the assembly step, written denotationally: the
row keys are, per header in caller order, the matching keys sorted by
the group comparator (`headerGroups`), then the unmatched keys sorted
lexicographically (`restKeys`); every row pairs a key with its field-map
value, and the updated header list is exactly the row keys. -/
def assembleSpec (fieldMap : SMap) (headers : List String) :
    List (String × String) × List String :=
  let allKeys := headerGroups fieldMap headers ++ restKeys fieldMap headers
  (allKeys.map (fun k => (k, lookupD fieldMap k)), allKeys)

/-! ### `FlattenStructFields` (struct.go:240) -/

/-- Embeds `pkgConfig` (struct.go:21) after the options are applied. -/
inductive PkgConfig where
  | mk (sortF generate : Bool) (headers : Option (List String))
      (excludeNil includeZero : Bool)

def PkgConfig.generate : PkgConfig → Bool
  | .mk _ g _ _ _ => g

def PkgConfig.headers : PkgConfig → Option (List String)
  | .mk _ _ h _ _ => h

/-- Outcome of `FlattenStructFields`: the returned rows, a returned
error, or a runtime panic — either the nil-`Headers` dereference
(struct.go:282) or a panic propagated out of the flattening step
(struct.go:743). -/
inductive FSResult where
  | ok (rows : List (String × String))
  | error (msg : String)
  | panicked (msg : String)
deriving DecidableEq, Repr

/-- Embeds `FlattenStructFields` (struct.go:240).  With `Generate` set and no
(or empty) supplied headers, headers are generated from the dereferenced
value (struct.go:263-270, options-free call).  The value is flattened —
an error or a panic raised there is surfaced before anything looks at
the headers — then, only when `Generate` is *not* set, the flat map is
pruned to the
keys matching some header, and headers left without a key are re-added
with an empty value only under the guard
`len(newMap) < len(*cfg.Headers)` (struct.go:297).  When `Generate` is
not set and no headers were supplied, `*cfg.Headers` dereferences a nil
pointer (struct.go:282-283): a panic.  Finally the map is assembled
against the headers. -/
def flattenStructFields (item : Value) (cfg : PkgConfig) : FSResult :=
  let val := derefPointers item
  if !(isStructKind val) then
    .error ("expected a struct or pointer to a struct, got " ++ kindName val)
  else
    let gen? : Except String (Option (List String)) :=
      if cfg.generate &&
          (cfg.headers == none || (cfg.headers.getD []).isEmpty) then
        match genFieldNames false "" val with
        | .error e => .error e
        | .ok gf => .ok (some gf)
      else .ok cfg.headers
    match gen? with
    | .error e => .error e
    | .ok headers1 =>
      match flattenNested item "" [] with
      | .error e => .error e
      | .panicked p => .panicked p
      | .ok fieldMap =>
        if !cfg.generate then
          match headers1 with
          | none =>
            .panicked "runtime error: invalid memory address or nil pointer dereference"
          | some hs =>
            let newMap :=
              fieldMap.filter (fun kv => hs.any (fun h => matchesHeader h kv.1))
            let newMap2 :=
              if newMap.length < hs.length then
                hs.foldl
                  (fun acc h =>
                    if acc.any (fun kv => kv.1 == h) then acc else acc ++ [(h, "")])
                  newMap
              else newMap
            .ok (mapToSliceAndUpdateFields newMap2 hs).1
        else
          match headers1 with
          | none =>
            .panicked "runtime error: invalid memory address or nil pointer dereference"
          | some hs => .ok (mapToSliceAndUpdateFields fieldMap hs).1

/-! ### `TableToStructs` (struct.go:157) -/

/-- Model of `cases.Title(language.English)` as used on the space-free
header strings: each maximal run of ASCII letters is a word, whose first
letter is upper-cased and whose remaining letters are lower-cased.
(`x/text` uses Unicode word segmentation, under which digits do not
break a word; the inputs here are all-letter words, where the model is
exact.) -/
def titleCaseGo (s : String) : String :=
  let isL := fun (c : Char) => ('a' ≤ c && c ≤ 'z') || ('A' ≤ c && c ≤ 'Z')
  let step := fun (acc : List Char × Bool) (c : Char) =>
    if isL c then
      (acc.1 ++ [if acc.2 then c.toLower else c.toUpper], true)
    else (acc.1 ++ [c], false)
  String.mk (s.data.foldl step ([], false)).1

/-- Model of `strings.ReplaceAll(header, " ", "")`. -/
def removeSpaces (s : String) : String :=
  String.mk (s.data.filter (fun c => c != ' '))

/-- Field name `TableToStructs` derives from a header (struct.go:170-171). -/
def sanitizeName (header : String) : String :=
  ensureValidIdentifier (titleCaseGo (removeSpaces header))

/-- Go's `StructField.IsExported` for the generated field: first
character an upper-case letter (ASCII model of the Unicode class). -/
def isExportedName (s : String) : Bool :=
  match s.data with
  | [] => false
  | c :: _ => 'A' ≤ c && c ≤ 'Z'

/-- The struct field `TableToStructs` builds for one header/cell pair:
sanitized name, tag `json:"<header>"`, declared type `string`. -/
def mkField (header cell : String) : SField :=
  .mk (sanitizeName header) header "" "" false
    (isExportedName (sanitizeName header)) .dString "string" (.vStr cell)

/-- One record of `TableToStructs` for a data row. -/
def mkRecord (headers row : List String) : Value :=
  .vStruct ((headers.zip row).map (fun p => mkField p.1 p.2))

/-- Row loop of `TableToStructs` (struct.go:181-190): every data row
must match the header count and becomes one string-typed record. -/
def rowsToRecords (headers : List String) :
    List (List String) → Except String (List Value)
  | [] => .ok []
  | row :: rest =>
    if row.length != headers.length then
      .error "data row does not match headers length"
    else
      match rowsToRecords headers rest with
      | .error e => .error e
      | .ok vs => .ok (mkRecord headers row :: vs)

/-- Valid Go identifier (ASCII model, as in `isLetterGo`): a letter or
underscore followed by letters, digits or underscores.
`reflect.StructOf` checks each field name against this (Go 1.17+,
`isValidFieldName`) and panics on failure. -/
def validIdentB (s : String) : Bool :=
  match s.data with
  | [] => false
  | c :: rest => isLetterGo c && rest.all (fun d => isLetterGo d || d.isDigit)

/-- Does the list repeat an element?  `reflect.StructOf` panics on a
duplicated field name. -/
def namesDup : List String → Bool
  | [] => false
  | n :: ns => ns.contains n || namesDup ns

/-- Outcome of `TableToStructs`: the records, a returned error, or a
`reflect.StructOf` panic while building the dynamic struct type. -/
inductive TTSResult where
  | ok (records : List Value)
  | error (msg : String)
  | panicked (msg : String)

/-- Embeds `TableToStructs` (struct.go:157): first row is the header row, the
rest become records.  `reflect.StructOf` (struct.go:178) panics when a
sanitized field name is not a valid identifier or is duplicated; the
struct type is built before the row loop, so those panics come before
any row-length error.  (The panic messages stand in for the
`reflect.StructOf: field ... has invalid name` / `duplicate field`
texts.) -/
def tableToStructs (data : List (List String)) : TTSResult :=
  match data with
  | [] => .error "data is empty"
  | headers :: rows =>
    let names := headers.map sanitizeName
    if names.any (fun n => !validIdentB n) then
      .panicked "reflect.StructOf: field has invalid name"
    else if namesDup names then
      .panicked "reflect.StructOf: duplicate field"
    else
      match rowsToRecords headers rows with
      | .error e => .error e
      | .ok vs => .ok vs

/-! ### Projections and example values used by the theorems -/

/-- Field names of a record value. -/
def recFieldNames : Value → List String
  | .vStruct fs => fs.map SField.name
  | _ => []

/-- Rendered field values of a record value. -/
def recFieldValues : Value → List String
  | .vStruct fs => fs.map (fun f => goSprint f.value)
  | _ => []

/-- Does the string start with a Go identifier letter (struct.go:197)? -/
def headIsLetter (s : String) : Bool :=
  match s.data with
  | [] => false
  | c :: _ => isLetterGo c

/-- The value `{Name: "Ann", Tags: ["x", "y"]}` with untagged fields (spec
scenario A). -/
def annV : Value :=
  .vStruct
    [.mk "Name" "" "" "" false true .dString "string" (.vStr "Ann"),
     .mk "Tags" "" "" "" false true .dSliceK "[]string"
       (.vSlice (.vStr "") [.vStr "x", .vStr "y"])]

/-- A struct whose only field `A` (tag `a`) is a struct with string
fields `x` and `y`: its flat keys are `a.x` and `a.y`, both
dotted-prefix matches of the header `a`. -/
def c1Item : Value :=
  .vStruct
    [.mk "A" "a" "" "" false true .dStructK "struct" (.vStruct
      [.mk "X" "x" "" "" false true .dString "string" (.vStr "1"),
       .mk "Y" "y" "" "" false true .dString "string" (.vStr "2")])]

/-- A struct with one non-anonymous `time.Time` field tagged `when`. -/
def c4Item : Value :=
  .vStruct
    [.mk "When" "when" "" "" false true .dStructK "time.Time"
      (.vTime "2024-05-01 00:00:00 +0000 UTC")]

/-- A struct with an 11-element string slice field tagged `items`. -/
def items11V : Value :=
  .vStruct
    [.mk "Items" "items" "" "" false true .dSliceK "[]string"
      (.vSlice (.vStr "") ((List.range 11).map (fun i => .vStr (toString i))))]

/-- A struct whose map field `M` (tag `m`) holds one entry whose value
is a nil pointer: flattening it reaches
`fmt.Sprint(value.Interface())` at struct.go:743 on the invalid
dereferenced value and panics. -/
def c10Item : Value :=
  .vStruct
    [.mk "M" "m" "" "" false true .dMapK "map[string]*string"
      (.vMap [("k", .vPtr none)])]

/-- A struct whose field `A` (tag `a`) is a pointer to a two-element
string array: struct.go:642 sends the array target back through
`FlattenNestedStructs`, which has no array arm and errors. -/
def c10ArrItem : Value :=
  .vStruct
    [.mk "A" "a" "" "" false true .dPtrOtherK "*[2]string"
      (.vPtr (some (.vArr (.vStr "") [.vStr "x", .vStr "y"])))]

/-! ## Claim theorems -/

/-- C9: `GenerateFieldNames` on a sequence (slice or array) value of
length zero fails immediately with the empty-sequence error, for every
prefix and declared element type; the `Except.error` constructor carries
only the message, so no partial path list accompanies it.  Slices and
arrays share this arm (struct.go:346-349). -/
theorem c9_empty_sequence_error (ex : Bool) (pfx : String) (zero : Value) :
    genFieldNames ex pfx (.vSlice zero []) =
      .error "GenerateFieldNames: empty slice or array" ∧
    genFieldNames ex pfx (.vArr zero []) =
      .error "GenerateFieldNames: empty slice or array" := ⟨rfl, rfl⟩

/-- C1 (claim falsified by the code): with headers `["a", "b"]` and a
value whose flat keys are `a.x` and `a.y`, both keys survive pruning, so
the pruned map already has as many entries as there are headers and the
missing-header top-up at struct.go:297 is skipped: no `("b", "")` row is
emitted although header `b` matched no flat key, contradicting the claim
and the code's own comment at struct.go:296. -/
theorem c1_missing_header_row_suppressed :
    flattenStructFields c1Item (.mk false false (some ["a", "b"]) false false) =
      .ok [("a.x", "1"), ("a.y", "2")] ∧
    ∀ r ∈ [(("a.x" : String), ("1" : String)), ("a.y", "2")], r.1 ≠ "b" :=
  ⟨rfl, by decide⟩

/-- C2 (claim falsified by the code): for `{Name: "Ann", Tags: ["x",
"y"]}` with untagged fields, `GenerateFieldNames` returns `["", ""]` —
it uses the raw `json` tag (empty here) with no `camelKey` fallback and
does not descend into slice fields — not the claimed `["name",
"tags.00", "tags.01"]`.  The flattened mapping itself is exactly as the
claim states, and so are the returned rows (the generated empty headers
match nothing, so the assembler emits every key as a lexicographically
sorted leftover). -/
theorem c2_generate_untagged_eval :
    genFieldNames false "" annV = .ok ["", ""] ∧
    flattenNested annV "" [] =
      .ok [("name", "Ann"), ("tags.00", "x"), ("tags.01", "y")] ∧
    flattenStructFields annV (.mk false true none false false) =
      .ok [("name", "Ann"), ("tags.00", "x"), ("tags.01", "y")] ∧
    (["", ""] : List String) ≠ ["name", "tags.00", "tags.01"] :=
  ⟨rfl, rfl, rfl, by decide⟩

/-- C4 (claim falsified by the code): for a non-anonymous `time.Time`
field tagged `when` generated under the prefix `outer`, the generator
emits the bare tag `"when"` (struct.go:408 appends `jsonTag`, not
`joinPrefixKey(prefix, jsonTag)`), not the claimed `"outer.when"`; the
flattener's parallel branch (struct.go:586-587) does join the prefix. -/
theorem c4_time_field_prefix_dropped :
    genFieldNames false "outer" c4Item = .ok ["when"] ∧
    flattenNested c4Item "outer" [] =
      .ok [("outer.when", "2024-05-01 00:00:00 +0000 UTC")] ∧
    ("when" : String) ≠ joinPfxKey "outer" "when" :=
  ⟨rfl, rfl, by decide⟩

/-- C7 (counterexample): `TableToStructs([["Full Name", "Age"], ["Ann",
"30"]])` sanitizes `"Full Name"` to the field name `"Fullname"`, not the
claimed `"FullName"`: the title caser lower-cases the interior of the
space-free word `FullName`. -/
theorem c7_field_name_counterexample :
    tableToStructs [["Full Name", "Age"], ["Ann", "30"]] =
      .ok [mkRecord ["Full Name", "Age"] ["Ann", "30"]] ∧
    recFieldNames (mkRecord ["Full Name", "Age"] ["Ann", "30"]) =
      ["Fullname", "Age"] ∧
    (["Fullname", "Age"] : List String) ≠ ["FullName", "Age"] :=
  ⟨rfl, rfl, by decide⟩

/-- C7 (amended): the table yields one record whose sanitized field
names are `Fullname` and `Age` (title-casing the space-free header
lower-cases the interior of each word), holding the string values
`"Ann"` and `"30"`; and in general a sanitized name that does not start
with an identifier letter is prefixed with `Field`, after which it
always starts with one. -/
theorem c7_table_to_structs_sanitization :
    tableToStructs [["Full Name", "Age"], ["Ann", "30"]] =
      .ok [mkRecord ["Full Name", "Age"] ["Ann", "30"]] ∧
    recFieldNames (mkRecord ["Full Name", "Age"] ["Ann", "30"]) =
      ["Fullname", "Age"] ∧
    recFieldValues (mkRecord ["Full Name", "Age"] ["Ann", "30"]) =
      ["Ann", "30"] ∧
    (∀ nm : String, headIsLetter nm = false →
      ensureValidIdentifier nm = "Field" ++ nm) ∧
    (∀ nm : String, headIsLetter (ensureValidIdentifier nm) = true) := by
  refine ⟨rfl, rfl, rfl, ?_, ?_⟩
  · intro nm h
    cases hd : nm.data with
    | nil => simp [ensureValidIdentifier, hd]
    | cons c rest =>
      simp only [headIsLetter, hd] at h
      simp [ensureValidIdentifier, hd, h]
  · intro nm
    cases hd : nm.data with
    | nil =>
      simp [ensureValidIdentifier, hd, headIsLetter, String.data_append]
      decide
    | cons c rest =>
      by_cases h : isLetterGo c = true
      · simp [ensureValidIdentifier, hd, h, headIsLetter]
      · simp [ensureValidIdentifier, hd, h, headIsLetter, String.data_append]
        decide

/-- C7 amended, witnessed at `"1name"` (starts with a digit). -/
theorem c7_table_to_structs_sanitization_witness :
    headIsLetter "1name" = false ∧
    ensureValidIdentifier "1name" = "Field1name" := by
  have h := c7_table_to_structs_sanitization
  exact ⟨by decide, h.2.2.2.1 "1name" (by decide)⟩

/-! ### Helper lemmas for the sequence-merge claim -/

theorem MergeFields_absorb :
    ∀ (cand acc : List String), (∀ p ∈ cand, p ∈ acc) →
      MergeFields acc cand = acc
  | [], _, _ => rfl
  | c :: cs, acc, h => by
    have hc : c ∈ acc := h c (List.mem_cons_self c cs)
    show List.foldl _ _ (c :: cs) = acc
    rw [List.foldl_cons, if_pos hc]
    exact MergeFields_absorb cs acc (fun p hp => h p (List.mem_cons_of_mem c hp))

theorem MergeFields_self (l : List String) : MergeFields l l = l :=
  MergeFields_absorb l l (fun _ h => h)

theorem genSliceBase_first (ex : Bool) (pfx : String) :
    ∀ (es : List Value) (e1 : Value) (rest : List Value),
      es.filter (fun e => !isNilRef e) = e1 :: rest →
      genSliceBase ex pfx es = genFieldNames ex pfx e1
  | [], _, _, h => by simp at h
  | e :: es, e1, rest, h => by
    by_cases hn : isNilRef e = true
    · have h2 : es.filter (fun e => !isNilRef e) = e1 :: rest := by
        simpa [List.filter_cons, hn] using h
      simp only [genSliceBase, hn, if_pos]
      exact genSliceBase_first ex pfx es e1 rest h2
    · have hne : (!isNilRef e) = true := by simp [hn]
      rw [List.filter_cons, if_pos hne] at h
      have he : e = e1 := (List.cons.injEq _ _ _ _ ▸ h).1
      simp only [genSliceBase, hn]
      rw [he]
      simp

theorem genSliceMerge_none (ex : Bool) (pfx : String) :
    ∀ (es : List Value) (acc : List String),
      es.filter (fun e => !isNilRef e) = [] →
      genSliceMerge ex pfx acc es = .ok acc
  | [], _, _ => rfl
  | e :: es, acc, h => by
    by_cases hn : isNilRef e = true
    · have h2 : es.filter (fun e => !isNilRef e) = [] := by
        simpa [List.filter_cons, hn] using h
      simp only [genSliceMerge, hn, if_pos]
      exact genSliceMerge_none ex pfx es acc h2
    · have hne : (!isNilRef e) = true := by simp [hn]
      rw [List.filter_cons, if_pos hne] at h
      exact absurd h (List.cons_ne_nil _ _)

theorem genSliceMerge_one (ex : Bool) (pfx : String) :
    ∀ (es : List Value) (e : Value) (f acc : List String),
      es.filter (fun x => !isNilRef x) = [e] →
      genFieldNames ex pfx e = .ok f →
      genSliceMerge ex pfx acc es = .ok (MergeFields acc f)
  | [], _, _, _, h, _ => by simp at h
  | x :: es, e, f, acc, h, hg => by
    by_cases hn : isNilRef x = true
    · have h2 : es.filter (fun x => !isNilRef x) = [e] := by
        simpa [List.filter_cons, hn] using h
      simp only [genSliceMerge, hn, if_pos]
      exact genSliceMerge_one ex pfx es e f acc h2 hg
    · have hne : (!isNilRef x) = true := by simp [hn]
      rw [List.filter_cons, if_pos hne] at h
      have hx : x = e := (List.cons.injEq _ _ _ _ ▸ h).1
      have h2 : es.filter (fun x => !isNilRef x) = [] :=
        (List.cons.injEq _ _ _ _ ▸ h).2
      simp only [genSliceMerge, hn]
      rw [hx, hg]
      simpa using genSliceMerge_none ex pfx es (MergeFields acc f) h2

theorem genSliceMerge_two (ex : Bool) (pfx : String) :
    ∀ (es : List Value) (e1 e2 : Value) (f1 f2 acc : List String),
      es.filter (fun x => !isNilRef x) = [e1, e2] →
      genFieldNames ex pfx e1 = .ok f1 →
      genFieldNames ex pfx e2 = .ok f2 →
      genSliceMerge ex pfx acc es = .ok (MergeFields (MergeFields acc f1) f2)
  | [], _, _, _, _, _, h, _, _ => by simp at h
  | x :: es, e1, e2, f1, f2, acc, h, h1, h2 => by
    by_cases hn : isNilRef x = true
    · have hrest : es.filter (fun x => !isNilRef x) = [e1, e2] := by
        simpa [List.filter_cons, hn] using h
      simp only [genSliceMerge, hn, if_pos]
      exact genSliceMerge_two ex pfx es e1 e2 f1 f2 acc hrest h1 h2
    · have hne : (!isNilRef x) = true := by simp [hn]
      rw [List.filter_cons, if_pos hne] at h
      have hx : x = e1 := (List.cons.injEq _ _ _ _ ▸ h).1
      have hrest : es.filter (fun x => !isNilRef x) = [e2] :=
        (List.cons.injEq _ _ _ _ ▸ h).2
      simp only [genSliceMerge, hn]
      rw [hx, h1]
      simpa using genSliceMerge_one ex pfx es e2 f2 (MergeFields acc f1) hrest h2

/-- C3: a sequence whose present (non-nil-reference) elements are two
record values generating the path lists `f1` and `f2` yields exactly
`MergeFields f1 f2`: `f1` first and in order, then each path of `f2` not
already present, in `f2`'s order (`MergeFields` is the spec-modelled
union-merge; the code merges the baseline `f1` with itself first, which
`MergeFields_self` shows is the identity).  The merged list is required
non-empty, keeping the zero-value fallback at struct.go:386-393 out of
play (two differently-shaped records always give a non-empty union). -/
theorem c3_sequence_union_merge (pfx : String) (zero : Value)
    (es : List Value) (e1 e2 : Value) (f1 f2 : List String)
    (hfil : es.filter (fun e => !isNilRef e) = [e1, e2])
    (h1 : genFieldNames false pfx e1 = .ok f1)
    (h2 : genFieldNames false pfx e2 = .ok f2)
    (hne : MergeFields f1 f2 ≠ []) :
    genFieldNames false pfx (.vSlice zero es) = .ok (MergeFields f1 f2) := by
  have hlen : (es.length == 0) = false := by
    cases es with
    | nil => simp at hfil
    | cons a l => simp
  have hbase : genSliceBase false pfx es = .ok f1 := by
    rw [genSliceBase_first false pfx es e1 [e2] hfil]
    exact h1
  have hmerge : genSliceMerge false pfx f1 es = .ok (MergeFields f1 f2) := by
    rw [genSliceMerge_two false pfx es e1 e2 f1 f2 f1 hfil h1 h2,
      MergeFields_self]
  have hlen2 : ((MergeFields f1 f2).length == 0) = false := by
    simpa using hne
  simp only [genFieldNames, hlen, Bool.false_eq_true, if_false, hbase, hmerge,
    hlen2]

/-- C3, witnessed on two differently-shaped one- and two-field records:
the union keeps the first element's `a` first and appends the second
element's new path `b`. -/
theorem c3_sequence_union_merge_witness :
    genFieldNames false ""
        (.vSlice (.vStr "")
          [.vStruct [.mk "A" "a" "" "" false true .dString "string" (.vStr "1")],
           .vStruct [.mk "B" "b" "" "" false true .dString "string" (.vStr "2"),
                     .mk "A" "a" "" "" false true .dString "string" (.vStr "3")]]) =
      .ok (MergeFields ["a"] ["b", "a"]) ∧
    MergeFields ["a"] ["b", "a"] = ["a", "b"] := by
  refine ⟨?_, by decide⟩
  exact c3_sequence_union_merge "" (.vStr "") _ _ _ ["a"] ["b", "a"] rfl rfl rfl
    (by decide)

/-! ### Helper lemmas for the assembler claim -/

theorem map_fst_pairs (l : List String) (f : String → String) :
    (l.map (fun k => (k, f k))).map Prod.fst = l := by
  induction l with
  | nil => rfl
  | cons a t ih => simp [ih]

theorem assembleFold (fm : SMap) :
    ∀ (hs : List String) (r : List (String × String)) (n : List String),
      hs.foldl (assembleStep fm) (r, n) =
        (r ++ (headerGroups fm hs).map (fun k => (k, lookupD fm k)),
         n ++ headerGroups fm hs)
  | [], r, n => by simp [headerGroups]
  | h :: hs, r, n => by
    rw [List.foldl_cons]
    by_cases hg :
        ((fm.map Prod.fst).filter (fun k => matchesHeader h k)).length > 0
    · have hstep : assembleStep fm (r, n) h =
          (r ++ (insSortBy (sortGroupLess h)
              ((fm.map Prod.fst).filter (fun k => matchesHeader h k))).map
            (fun k => (k, lookupD fm k)),
           n ++ insSortBy (sortGroupLess h)
              ((fm.map Prod.fst).filter (fun k => matchesHeader h k))) := by
        simp [assembleStep, hg]
      rw [hstep, assembleFold fm hs]
      simp [headerGroups, List.append_assoc]
    · have hnil : (fm.map Prod.fst).filter (fun k => matchesHeader h k) = [] := by
        simpa using hg
      have hstep : assembleStep fm (r, n) h = (r, n) := by
        simp [assembleStep, hnil]
      rw [hstep, assembleFold fm hs]
      simp [headerGroups, hnil, insSortBy]

/-- C6: the assembly step is exactly its denotational description: rows
are grouped per header in caller order, each group sorted by the
comparator (`sortGroupLess`: the key equal to the header first, then the
first post-prefix dot-segment numerically when both parse as integers
with the remaining suffix lexicographic, else lexicographic), unmatched
keys appended last in lexicographic order, and the updated header list
is exactly the row keys in that order. -/
theorem c6_assembler_matches_spec (fieldMap : SMap) (headers : List String) :
    mapToSliceAndUpdateFields fieldMap headers = assembleSpec fieldMap headers ∧
    (mapToSliceAndUpdateFields fieldMap headers).2 =
      (mapToSliceAndUpdateFields fieldMap headers).1.map Prod.fst := by
  have hfold := assembleFold fieldMap headers [] []
  have h1 :
      mapToSliceAndUpdateFields fieldMap headers = assembleSpec fieldMap headers := by
    simp only [mapToSliceAndUpdateFields, hfold, assembleSpec, restKeys]
    simp [List.map_append, List.append_assoc]
  refine ⟨h1, ?_⟩
  rw [h1]
  exact (map_fst_pairs
    (headerGroups fieldMap headers ++ restKeys fieldMap headers)
    (fun k => lookupD fieldMap k)).symm

/-! ### Helper lemmas for the index-padding claim -/

theorem mapInsert_fresh (m : SMap) (k v : String)
    (h : k ∉ m.map Prod.fst) : mapInsert m k v = m ++ [(k, v)] := by
  have hany : m.any (fun kv => kv.1 == k) = false := by
    simp only [List.any_eq_false]
    intro kv hkv he
    exact h (eq_of_beq he ▸ List.mem_map_of_mem Prod.fst hkv)
  simp [mapInsert, hany]

theorem flattenSliceGo_strings :
    ∀ (xs : List String) (j w : Nat) (kPfx : String) (m : SMap),
      ((List.range' j xs.length).map
        (fun i => joinPfxKey kPfx (zeroPad w (toString i)))).Nodup →
      (∀ key ∈ (List.range' j xs.length).map
          (fun i => joinPfxKey kPfx (zeroPad w (toString i))),
        key ∉ m.map Prod.fst) →
      flattenSliceGo (xs.map .vStr) j w kPfx m =
        .ok (m ++ ((List.range' j xs.length).zip xs).map
          (fun p => (joinPfxKey kPfx (zeroPad w (toString p.1)), p.2)))
  | [], j, w, kPfx, m, _, _ => by simp [flattenSliceGo]
  | x :: xs, j, w, kPfx, m, hnd, hfresh => by
    have hkey : joinPfxKey kPfx (zeroPad w (toString j)) ∉ m.map Prod.fst := by
      apply hfresh
      simp [List.range']
    simp only [List.map_cons, flattenSliceGo, goSprint]
    rw [mapInsert_fresh m _ x hkey]
    have hrange :
        List.range' j (xs.length + 1) = j :: List.range' (j + 1) xs.length := rfl
    rw [List.length_cons, hrange] at hnd
    simp only [List.map_cons, List.nodup_cons] at hnd
    have hnd' := hnd.2
    have hhead := hnd.1
    have hfresh' : ∀ key ∈ (List.range' (j + 1) xs.length).map
        (fun i => joinPfxKey kPfx (zeroPad w (toString i))),
        key ∉ (m ++ [(joinPfxKey kPfx (zeroPad w (toString j)), x)]).map Prod.fst := by
      intro key hk
      simp only [List.map_append, List.mem_append, List.map_cons, List.map_nil,
        List.mem_singleton, not_or]
      constructor
      · apply hfresh
        rw [List.length_cons, hrange]
        exact List.mem_cons_of_mem _ hk
      · intro he
        exact hhead (he ▸ hk)
    rw [flattenSliceGo_strings xs (j + 1) w kPfx _ hnd' hfresh']
    simp [List.length_cons, hrange, List.append_assoc, List.zip_cons_cons]

/-- C5: the flattener keys the elements of a sequence of `n` strings
with the zero-padded decimal index of width `sliceWidth n`, which is
`max 2 (digit count of n-1)` for every `n`; an 11-element sequence under
the header `items` uses width 2, and in the assembled output the rows
appear in index order, with `items.02` before `items.10`.  (The first
conjunct assumes the padded keys distinct, which for every concrete
length the witness discharges by computation.) -/
theorem c5_slice_index_padding :
    (∀ (kPfx : String) (xs : List String),
      ((List.range xs.length).map
        (fun i => joinPfxKey kPfx (zeroPad (sliceWidth xs.length) (toString i)))).Nodup →
      flattenSliceGo (xs.map .vStr) 0 (sliceWidth xs.length) kPfx [] =
        .ok (((List.range xs.length).zip xs).map
          (fun p =>
            (joinPfxKey kPfx (zeroPad (sliceWidth xs.length) (toString p.1)),
             p.2)))) ∧
    (∀ n : Nat, sliceWidth n = max 2 (toString ((n : Int) - 1)).length) ∧
    sliceWidth 11 = 2 ∧
    flattenStructFields items11V (.mk false false (some ["items"]) false false) =
      .ok ((List.range 11).map
        (fun i => ("items." ++ zeroPad 2 (toString i), toString i))) ∧
    ((List.range 11).map (fun i => "items." ++ zeroPad 2 (toString i))).indexOf
        "items.02" <
      ((List.range 11).map (fun i => "items." ++ zeroPad 2 (toString i))).indexOf
        "items.10" := by
  refine ⟨?_, ?_, by decide, by decide, by decide⟩
  · intro kPfx xs hnd
    have h := flattenSliceGo_strings xs 0 (sliceWidth xs.length) kPfx []
    rw [List.range_eq_range']
    apply h
    · rw [← List.range_eq_range']
      exact hnd
    · intro key _
      simp
  · intro n
    simp only [sliceWidth]
    split <;> omega

/-- C5, witnessed at the 11-element string sequence `["0", ..., "10"]`
under the prefix `items` (the padded keys are distinct). -/
theorem c5_slice_index_padding_witness :
    flattenSliceGo
        ((["0", "1", "2", "3", "4", "5", "6", "7", "8", "9", "10"] :
          List String).map .vStr) 0 (sliceWidth 11) "items" [] =
      .ok [("items.00", "0"), ("items.01", "1"), ("items.02", "2"),
        ("items.03", "3"), ("items.04", "4"), ("items.05", "5"),
        ("items.06", "6"), ("items.07", "7"), ("items.08", "8"),
        ("items.09", "9"), ("items.10", "10")] := by
  have h := c5_slice_index_padding.1 "items"
    ["0", "1", "2", "3", "4", "5", "6", "7", "8", "9", "10"] (by decide)
  exact h

/-- C8 (counterexample): for the single header `""` and the data row
`["v"]`, `TableToStructs` succeeds — the empty header sanitizes to the
valid exported field name `Field` (so `reflect.StructOf` does not
panic) with tag `json:""` — but the flattener keys the field by the
`camelKey` fallback `"field"`, which neither equals the header `""` nor
extends `"."`: pruning drops the value, the top-up re-adds the header
with `""`, and the call returns `[("", "")]` instead of reproducing
`["v"]`. -/
theorem c8_roundtrip_counterexample :
    tableToStructs [[""], ["v"]] = .ok [mkRecord [""] ["v"]] ∧
    sanitizeName "" = "Field" ∧
    validIdentB (sanitizeName "") = true ∧
    isExportedName (sanitizeName "") = true ∧
    flattenStructFields (mkRecord [""] ["v"])
        (.mk false false (some [""]) false false) = .ok [("", "")] ∧
    ([("", "")].map Prod.snd : List String) ≠ ["v"] :=
  ⟨rfl, rfl, by decide, by decide, rfl, by decide⟩

/-! ### Helper lemmas for the round-trip claim -/

theorem joinPfxKey_empty (k : String) : joinPfxKey "" k = k := by
  by_cases h : k = "" <;> simp [joinPfxKey, h]

theorem getMapKey_strField (nm h : String) (anon e : Bool) (v : Value)
    (ht : getFirstTag h = h) (h0 : h ≠ "") (hd : h ≠ "-") :
    getMapKey (.mk nm h "" "" anon e .dString "string" v) = h := by
  have h1 : (h != "") = true := by simp [h0]
  have h2 : (h != "-") = true := by simp [hd]
  simp [getMapKey, SField.jsonTag, SField.urlTag, SField.xmlTag,
    SField.name, ht, h1, h2]

theorem flattenFields_record :
    ∀ (ps : List (String × String)) (m : SMap),
      (ps.map Prod.fst).Nodup →
      (∀ p ∈ ps, p.1 ∉ m.map Prod.fst) →
      (∀ p ∈ ps, getFirstTag p.1 = p.1 ∧ p.1 ≠ "" ∧ p.1 ≠ "-") →
      (∀ p ∈ ps, isExportedName (sanitizeName p.1) = true) →
      flattenFields (ps.map (fun p => mkField p.1 p.2)) "" m = .ok (m ++ ps)
  | [], m, _, _, _, _ => by simp [flattenFields]
  | (h, c) :: ps, m, hnd, hfresh, htag, hexp => by
    obtain ⟨ht, h0, hd⟩ := htag (h, c) (List.mem_cons_self _ _)
    have hexp1 := hexp (h, c) (List.mem_cons_self _ _)
    have hfr : h ∉ m.map Prod.fst := hfresh (h, c) (List.mem_cons_self _ _)
    have hndc := List.nodup_cons.mp hnd
    have hfresh' : ∀ p ∈ ps, p.1 ∉ (m ++ [(h, c)]).map Prod.fst := by
      intro p hp
      simp only [List.map_append, List.mem_append, List.map_cons, List.map_nil,
        List.mem_singleton, not_or]
      refine ⟨hfresh p (List.mem_cons_of_mem _ hp), fun he => ?_⟩
      have hm1 : p.1 ∈ ps.map Prod.fst := List.mem_map_of_mem Prod.fst hp
      rw [he] at hm1
      exact hndc.1 hm1
    have ih := flattenFields_record ps (m ++ [(h, c)]) hndc.2 hfresh'
      (fun p hp => htag p (List.mem_cons_of_mem _ hp))
      (fun p hp => hexp p (List.mem_cons_of_mem _ hp))
    simp only [List.map_cons, mkField] at *
    simp only [flattenFields, flattenFieldStep, hexp1, Bool.not_true,
      Bool.false_eq_true, if_false, goSprint]
    rw [getMapKey_strField _ h _ _ _ ht h0 hd, joinPfxKey_empty,
      mapInsert_fresh m h c hfr, ih]
    simp

theorem rowsToRecords_ok (hs : List String) :
    ∀ (rows : List (List String)), (∀ r ∈ rows, r.length = hs.length) →
      rowsToRecords hs rows = .ok (rows.map (mkRecord hs))
  | [], _ => rfl
  | r :: rows, hlen => by
    have h1 : (r.length != hs.length) = false := by
      simp [hlen r (List.mem_cons_self _ _)]
    simp only [rowsToRecords, h1, Bool.false_eq_true, if_false,
      rowsToRecords_ok hs rows (fun x hx => hlen x (List.mem_cons_of_mem _ hx)),
      List.map_cons]

theorem namesDup_eq_false :
    ∀ (l : List String), l.Nodup → namesDup l = false
  | [], _ => rfl
  | n :: ns, h => by
    have hc := List.nodup_cons.mp h
    have h1 : ns.contains n = false := by
      simpa using hc.1
    show (ns.contains n || namesDup ns) = false
    rw [h1, Bool.false_or]
    exact namesDup_eq_false ns hc.2

theorem lookupD_nodup :
    ∀ (ps : List (String × String)), (ps.map Prod.fst).Nodup →
      ∀ p ∈ ps, lookupD ps p.1 = p.2
  | [], _, p, hp => absurd hp (List.not_mem_nil p)
  | (k, v) :: ps, hnd, p, hp => by
    have hndc := List.nodup_cons.mp hnd
    rcases List.mem_cons.mp hp with h | h
    · subst h
      simp [lookupD, List.find?]
    · have hne : (k == p.1) = false := by
        apply beq_eq_false_iff_ne.mpr
        intro he
        have hm1 : p.1 ∈ ps.map Prod.fst := List.mem_map_of_mem Prod.fst h
        rw [← he] at hm1
        exact hndc.1 hm1
      have ih := lookupD_nodup ps hndc.2 p h
      simp only [lookupD, List.find?, hne]
      exact ih

theorem flatten_map_singleton {α : Type} :
    ∀ (l : List α) (f : α → List α), (∀ x ∈ l, f x = [x]) →
      (l.map f).flatten = l
  | [], _, _ => rfl
  | x :: xs, f, h => by
    rw [List.map_cons, List.flatten_cons, h x (List.mem_cons_self _ _),
      flatten_map_singleton xs f (fun y hy => h y (List.mem_cons_of_mem _ hy))]
    rfl

theorem filter_single :
    ∀ (keys : List String) (h : String), keys.Nodup → h ∈ keys →
      (∀ k ∈ keys, k ≠ h → matchesHeader h k = false) →
      keys.filter (fun k => matchesHeader h k) = [h]
  | [], h, _, hm, _ => absurd hm (List.not_mem_nil h)
  | k :: keys, h, hnd, hm, hno => by
    have hndc := List.nodup_cons.mp hnd
    rcases List.mem_cons.mp hm with he | he
    · subst he
      rw [List.filter_cons, if_pos (by simp [matchesHeader])]
      have hnil : keys.filter (fun k => matchesHeader h k) = [] := by
        rw [List.filter_eq_nil_iff]
        intro a ha
        have hna : a ≠ h := fun heq => hndc.1 (heq ▸ ha)
        simp [hno a (List.mem_cons_of_mem _ ha) hna]
      rw [hnil]
    · have hkh : k ≠ h := fun heq => hndc.1 (heq ▸ he)
      rw [List.filter_cons,
        if_neg (by simp [hno k (List.mem_cons_self _ _) hkh]), ]
      exact filter_single keys h hndc.2 he
        (fun a ha hne => hno a (List.mem_cons_of_mem _ ha) hne)

theorem assemble_exact (ps : List (String × String))
    (hnd : (ps.map Prod.fst).Nodup)
    (hno : ∀ a ∈ ps.map Prod.fst, ∀ b ∈ ps.map Prod.fst, a ≠ b →
      matchesHeader a b = false) :
    mapToSliceAndUpdateFields ps (ps.map Prod.fst) = (ps, ps.map Prod.fst) := by
  have hgroup : ∀ h ∈ ps.map Prod.fst,
      insSortBy (sortGroupLess h)
        ((ps.map Prod.fst).filter (fun k => matchesHeader h k)) = [h] := by
    intro h hh
    rw [filter_single (ps.map Prod.fst) h hnd hh
      (fun k hk hne => hno h hh k hk (fun he => hne he.symm))]
    rfl
  have hg : headerGroups ps (ps.map Prod.fst) = ps.map Prod.fst :=
    flatten_map_singleton (ps.map Prod.fst) _ hgroup
  have hleft : (ps.map Prod.fst).filter
      (fun k => !((ps.map Prod.fst).any (fun h => matchesHeader h k))) = [] := by
    rw [List.filter_eq_nil_iff]
    intro a ha
    have : (ps.map Prod.fst).any (fun h => matchesHeader h a) = true :=
      List.any_eq_true.mpr ⟨a, ha, by simp [matchesHeader]⟩
    simp [this]
  have hrows : (ps.map Prod.fst).map (fun k => (k, lookupD ps k)) = ps := by
    rw [List.map_map]
    have : ∀ p ∈ ps, ((fun k => (k, lookupD ps k)) ∘ Prod.fst) p = p := by
      intro p hp
      simp only [Function.comp_apply]
      rw [lookupD_nodup ps hnd p hp]
    rw [List.map_congr_left this]
    exact List.map_id' ps
  have hfold := assembleFold ps (ps.map Prod.fst) [] []
  simp only [mapToSliceAndUpdateFields, hfold, hg, hleft, insSortBy, hrows]
  simp

/-- C8 (amended): the round trip holds for well-behaved headers: pairwise
distinct, each equal to its own first comma-part (no commas), non-empty,
not `-`, none a dotted-prefix match of another, and sanitizing to
distinct valid exported field names (the two conditions under which
`reflect.StructOf` builds the record type without panicking).  Then
`TableToStructs` builds one record per data row, and flattening a record
through `FlattenStructFields` with the same headers returns exactly the
header/value rows of its data row. -/
theorem c8_roundtrip_amended (hs : List String) (rows : List (List String))
    (hnd : hs.Nodup)
    (htag : ∀ h ∈ hs, getFirstTag h = h ∧ h ≠ "" ∧ h ≠ "-")
    (hno : ∀ a ∈ hs, ∀ b ∈ hs, a ≠ b → matchesHeader a b = false)
    (hexp : ∀ h ∈ hs, isExportedName (sanitizeName h) = true)
    (hval : ∀ h ∈ hs, validIdentB (sanitizeName h) = true)
    (hsnd : (hs.map sanitizeName).Nodup)
    (hlen : ∀ r ∈ rows, r.length = hs.length) :
    tableToStructs (hs :: rows) = .ok (rows.map (mkRecord hs)) ∧
    ∀ r ∈ rows,
      flattenStructFields (mkRecord hs r) (.mk false false (some hs) false false) =
        .ok (hs.zip r) := by
  have hguard1 : (hs.map sanitizeName).any (fun n => !validIdentB n) = false := by
    simp only [List.any_eq_false]
    intro n hn
    obtain ⟨h0, hh0, he⟩ := List.mem_map.mp hn
    subst he
    simp [hval h0 hh0]
  have hguard2 : namesDup (hs.map sanitizeName) = false :=
    namesDup_eq_false _ hsnd
  refine ⟨?_, ?_⟩
  · simp only [tableToStructs, hguard1, Bool.false_eq_true, if_false, hguard2,
      rowsToRecords_ok hs rows hlen]
  intro r hr
  have hrlen : r.length = hs.length := hlen r hr
  have hkeys : (hs.zip r).map Prod.fst = hs :=
    List.map_fst_zip hs r (le_of_eq hrlen.symm)
  have hnd' : ((hs.zip r).map Prod.fst).Nodup := by rw [hkeys]; exact hnd
  have hmem : ∀ p ∈ hs.zip r, p.1 ∈ hs := by
    intro p hp
    rw [← hkeys]
    exact List.mem_map_of_mem Prod.fst hp
  have hflat : flattenNested (mkRecord hs r) "" [] = .ok (hs.zip r) := by
    have hrec := flattenFields_record (hs.zip r) [] hnd' (by simp)
      (fun p hp => htag p.1 (hmem p hp))
      (fun p hp => hexp p.1 (hmem p hp))
    simpa [mkRecord, flattenNested] using hrec
  have hfilter : (hs.zip r).filter
      (fun kv => hs.any (fun h => matchesHeader h kv.1)) = hs.zip r := by
    rw [List.filter_eq_self]
    intro kv hkv
    exact List.any_eq_true.mpr ⟨kv.1, hmem kv hkv, by simp [matchesHeader]⟩
  have hno' : ∀ a ∈ (hs.zip r).map Prod.fst, ∀ b ∈ (hs.zip r).map Prod.fst,
      a ≠ b → matchesHeader a b = false := by
    rw [hkeys]; exact hno
  have hasm := assemble_exact (hs.zip r) hnd' hno'
  rw [hkeys] at hasm
  have hlt : ¬ r.length < hs.length := by omega
  simp only [mkRecord] at hflat
  simp [flattenStructFields, derefPointers, isStructKind, PkgConfig.generate,
    PkgConfig.headers, mkRecord, hflat, hfilter, hlt, hasm]

/-- C8 amended, witnessed on the table `[["name", "age"], ["Ann", "30"]]`. -/
theorem c8_roundtrip_amended_witness :
    tableToStructs [["name", "age"], ["Ann", "30"]] =
      .ok [mkRecord ["name", "age"] ["Ann", "30"]] ∧
    flattenStructFields (mkRecord ["name", "age"] ["Ann", "30"])
        (.mk false false (some ["name", "age"]) false false) =
      .ok [("name", "Ann"), ("age", "30")] := by
  have h := c8_roundtrip_amended ["name", "age"] [["Ann", "30"]]
    (by decide) (by decide) (by decide) (by decide) (by decide) (by decide)
    (by decide)
  exact ⟨h.1, h.2 ["Ann", "30"] (List.mem_cons_self _ _)⟩

/-- C10 (counterexample): the claim's universal panic-on-nil-Headers is
false of the program.  For `c10Item` — a struct whose map field holds a
nil-pointer entry — the call panics *before* pruning, inside
`flattenMap`: the dereferenced entry is the invalid `reflect.Value` and
`value.Interface()` at struct.go:743 panics with a different message
than the nil-pointer dereference the claim describes.  And for
`c10ArrItem` — a pointer-to-array field — the call returns an error
(struct.go:642 routes the array through `FlattenNestedStructs`, which
rejects it at struct.go:558), so it does not panic at all. -/
theorem c10_earlier_panic_or_error :
    flattenStructFields c10Item (.mk false false none false false) =
      .panicked "reflect: call of reflect.Value.Interface on zero Value" ∧
    ("reflect: call of reflect.Value.Interface on zero Value" : String) ≠
      "runtime error: invalid memory address or nil pointer dereference" ∧
    flattenStructFields c10ArrItem (.mk false false none false false) =
      .error "expected a struct or pointer to a struct, got array" :=
  ⟨rfl, by decide, rfl⟩

/-- C10 (amended): with `Generate` unset and no `Headers` supplied, every
struct input whose flattening completes with a flat map goes on to
dereference the nil `cfg.Headers` pointer during pruning
(struct.go:282-283) and panics; an input whose flattening itself panics
(a nil-reference map entry reaching `Interface()` on the zero value,
struct.go:743) or errors (an array flattening target, e.g. behind a
pointer field) fails earlier and never reaches the pruning
dereference. -/
theorem c10_nil_headers_panicked (item : Value)
    (sortF exclNil incZero : Bool) (fm : SMap)
    (h : isStructKind (derefPointers item) = true)
    (hflat : flattenNested item "" [] = .ok fm) :
    flattenStructFields item (.mk sortF false none exclNil incZero) =
      .panicked "runtime error: invalid memory address or nil pointer dereference" := by
  simp [flattenStructFields, PkgConfig.generate, PkgConfig.headers, h, hflat]

/-- C10 amended, witnessed on the two-field record `annV`, whose
flattening completes. -/
theorem c10_nil_headers_panicked_witness :
    flattenNested annV "" [] =
      .ok [("name", "Ann"), ("tags.00", "x"), ("tags.01", "y")] ∧
    flattenStructFields annV (.mk false false none false false) =
      .panicked "runtime error: invalid memory address or nil pointer dereference" :=
  ⟨rfl, c10_nil_headers_panicked annV false false false
    [("name", "Ann"), ("tags.00", "x"), ("tags.01", "y")] rfl rfl⟩
end Starstruct
